import Mathlib

/-!
# gedis: the scan-and-batch-delete engine

A shallow embedding of `internal/single-client.go` and
`internal/cluster-client.go`, and what holds of `Count`, `Clear`, the scan
loops and `delBatch` / `flush`.

Modelling conventions.

* The Redis server and the go-redis handles are an environment `Redis σ`:
  a state type `σ` and one transition per command the code issues (`Scan`,
  `DBSize`, a pipelined `Exec`).  Every command the code issues is appended
  to a log, so that "issues no scan query" is a statement about the log.
* A pipeline is go-redis' `Pipeliner`: `Del` queues a command and returns it,
  `Exec` sends the queued commands in one round trip and always empties the
  queue.  `Exec` answers with an error flag and the value it left in each
  command: it reports the first command error, so an `Exec` that fails may
  have executed some of its commands.
* `for hasNext { ... }` may run for ever when the server never answers with
  cursor 0; the loops take a fuel argument and answer `none` / `unfinished`
  when it runs out.
* Counters (`uint64`, `int64`, `int`) are unbounded here: every run consumes
  one network reply per increment, far below `2 ^ 63`.
* `Clear` starts two goroutines joined by a channel.  The producer is
  followed statement by statement; after each scan step the consumer is
  allowed to receive as many of the keys already sent as the schedule
  `sched` says (any number, also zero), and receives the rest once the
  channel is closed.  The capacity of the channel only excludes schedules.
* `ForEachMaster` starts one goroutine per master.  `ClusterClient.Count` and
  `ClusterClient.Clear` follow the runs in which the commands of the callbacks
  are answered one callback after the other, in the order of `masters`; with
  one master these are all the runs.  The callbacks write the result map
  without a lock: a write that coincides with the write of another callback
  makes the Go runtime stop the process (`fatal error: concurrent map
  writes`).  The oracle `races` says for which masters this happens in the
  run, and the outcome is then `crashed`.
-/

namespace Gedis

/-! ## The command surface -/

/-- Result of `Scan(ctx, cursor, match, 0).Result()`: a page of keys with the
next cursor, or an error. -/
inductive ScanReply where
  | ok (keys : List String) (cursor : Nat)
  | err
  deriving DecidableEq

/-- The handle a command is issued on: one node (`rdb`, or the client of a
`SingleClient`) or the cluster handle `t.client` of a `ClusterClient`. -/
inductive Handle where
  | node (addr : String)
  | cluster
  deriving DecidableEq

/-- Result of `Pipeliner.Exec`: whether it returned an error, and the value
left in each queued command, in queue order. -/
structure ExecReply where
  failed : Bool
  vals : List Int
  deriving DecidableEq

/-- The environment: the server state and its answer to each command. -/
structure Redis (σ : Type) where
  scan : σ → String → Nat → String → ScanReply × σ
  dbSize : σ → Handle → Option Nat × σ
  exec : σ → List String → ExecReply × σ

/-- One command sent to the server, with its answer. -/
inductive Event where
  | scan (addr : String) (cursor : Nat) (pattern : String) (reply : ScanReply)
  | dbSize (h : Handle) (reply : Option Nat)
  | exec (keys : List String) (failed : Bool) (vals : List Int)
  deriving DecidableEq

/-- A connection: the server state and the commands issued so far. -/
structure Conn (σ : Type) where
  world : σ
  log : List Event

/-- The call `rdb.Scan(ctx, cursor, pattern, 0).Result()`. -/
def Scan {σ : Type} (R : Redis σ) (conn : Conn σ) (addr : String) (cursor : Nat)
    (pattern : String) : ScanReply × Conn σ :=
  let r := R.scan conn.world addr cursor pattern
  (r.1, { world := r.2, log := conn.log ++ [Event.scan addr cursor pattern r.1] })

/-- The call `DBSize(ctx).Result()` on handle `h`. -/
def DBSize {σ : Type} (R : Redis σ) (conn : Conn σ) (h : Handle) : Option Nat × Conn σ :=
  let r := R.dbSize conn.world h
  (r.1, { world := r.2, log := conn.log ++ [Event.dbSize h r.1] })

/-- Go's `unicode.IsSpace`. -/
def isSpace (c : Char) : Bool :=
  let n := c.toNat
  (9 ≤ n && n ≤ 13) || n == 32 || n == 0x85 || n == 0xA0 || n == 0x1680 ||
    (0x2000 ≤ n && n ≤ 0x200A) || n == 0x2028 || n == 0x2029 || n == 0x202F ||
    n == 0x205F || n == 0x3000

/-- Go's `strings.TrimSpace`. -/
def TrimSpace (s : String) : String :=
  String.mk ((s.data.dropWhile isSpace).reverse.dropWhile isSpace).reverse

/-- The `map[string]uint64` both operations return. -/
abbrev ResultMap := List (String × Nat)

/-- The assignment `m[k] = v`. -/
def ResultMap.set (m : ResultMap) (k : String) (v : Nat) : ResultMap :=
  m.filter (fun e => e.1 != k) ++ [(k, v)]

/-- How a call ends: it returns a value, it blocks for ever (a goroutine
waits on a channel nobody closes), the Go runtime stops the process because two
goroutines write the same map at once, or the fuel of a scan loop ran out. -/
inductive Outcome (α : Type) where
  | returned (a : α)
  | blocked
  | crashed
  | unfinished
  deriving DecidableEq

/-! ## The pipeline and `delBatch` / `flush`

`SingleClient.delBatch`/`flush` and `ClusterClient.delBatch`/`flush` have the
same body; `t.client.Pipeline()` differs only in the environment behind it. -/

/-- A `Pipeliner` with the `IntCmd` objects it has created.  A command is
named by its creation number; `queued` are the keys of the commands created
since the last `Exec`, `results` the value of every command already sent, in
creation order.  `Exec` empties the queue whether or not it fails. -/
structure Pipe where
  queued : List String
  issued : Nat
  results : List Int

/-- The call `cmd.Val()` for the command with creation number `c`: 0 until the
command has been sent. -/
def Pipe.val (p : Pipe) (c : Nat) : Int := p.results.getD c 0

/-- The call `pipeline.Del(ctx, key)`: queues a command and returns it. -/
def Pipe.Del (p : Pipe) (key : String) : Nat × Pipe :=
  (p.issued, { p with queued := p.queued ++ [key], issued := p.issued + 1 })

/-- The values `Exec` leaves in `n` queued commands, given the reply. -/
def execVals (n : Nat) (r : ExecReply) : List Int :=
  (List.range n).map (fun i => r.vals.getD i 0)

/-- The call `(*pipeline).Exec(ctx)`: sends the queued commands in one round
trip; returns whether it failed. -/
def Exec {σ : Type} (R : Redis σ) (conn : Conn σ) (p : Pipe) : Bool × Pipe × Conn σ :=
  let r := R.exec conn.world p.queued
  let vals := execVals p.queued.length r.1
  (r.1.failed,
   { p with queued := [], results := p.results ++ vals },
   { world := r.2, log := conn.log ++ [Event.exec p.queued r.1.failed vals] })

/-- The source's `flush`: `none` is the error return, `some deletedNum` the
sum over the non-nil slots, which are reset to nil only on this path. -/
def flush {σ : Type} (R : Redis σ) (conn : Conn σ) (p : Pipe) (commands : List (Option Nat)) :
    Option Int × List (Option Nat) × Pipe × Conn σ :=
  let r := Exec R conn p
  if r.1 then (none, commands, r.2.1, r.2.2)
  else
    let p1 := r.2.1
    let deletedNum := (commands.map (fun s => match s with
      | some c => p1.val c
      | none => 0)).sum
    (some deletedNum, commands.map (fun _ => none), p1, r.2.2)

/-- The locals of `delBatch`. -/
structure Batcher where
  pipe : Pipe
  commands : List (Option Nat)
  n : Nat
  delTotal : Int

/-- The state of `delBatch` before the first key: `make([]*redis.IntCmd, 500)`
and a fresh pipeline. -/
def Batcher.init : Batcher :=
  { pipe := { queued := [], issued := 0, results := [] },
    commands := List.replicate 500 none, n := 0, delTotal := 0 }

/-- The statement `if num, err := t.flush(...); err != nil { log } else
{ delTotal += num }`. -/
def flushInto {σ : Type} (R : Redis σ) (s : Conn σ × Batcher) : Conn σ × Batcher :=
  let r := flush R s.1 s.2.pipe s.2.commands
  match r.1 with
  | none => (r.2.2.2, { s.2 with pipe := r.2.2.1, commands := r.2.1 })
  | some num =>
    (r.2.2.2, { s.2 with pipe := r.2.2.1, commands := r.2.1, delTotal := s.2.delTotal + num })

/-- The body of `for key := range keyChannel`. -/
def delStep {σ : Type} (R : Redis σ) (s : Conn σ × Batcher) (key : String) : Conn σ × Batcher :=
  let index := s.2.n % 500
  let d := s.2.pipe.Del key
  let b : Batcher :=
    { s.2 with pipe := d.2, commands := s.2.commands.set index (some d.1), n := s.2.n + 1 }
  if b.n % 500 = 0 then flushInto R (s.1, b) else (s.1, b)

/-- The code after the loop of `delBatch`: the final, partial flush. -/
def delFinish {σ : Type} (R : Redis σ) (s : Conn σ × Batcher) : Conn σ × Batcher :=
  if s.2.n % 500 ≠ 0 then flushInto R s else s

/-- The source's `delBatch` on a channel that delivers `keys` and is then
closed; the returned `Batcher` carries `delTotal`. -/
def delBatch {σ : Type} (R : Redis σ) (conn : Conn σ) (keys : List String) : Conn σ × Batcher :=
  delFinish R (keys.foldl (delStep R) (conn, Batcher.init))

/-! ## The two goroutines of `Clear` -/

/-- What the two goroutines of `Clear` share: the connection, the keys sent
and not yet received, the consumer's locals, and the schedule. -/
structure Job (σ : Type) where
  conn : Conn σ
  chan : List String
  del : Batcher
  sched : List Nat

/-- The consumer receives up to `k` of the keys waiting in the channel. -/
def Job.receive {σ : Type} (R : Redis σ) (k : Nat) (j : Job σ) : Job σ :=
  let s := (j.chan.take k).foldl (delStep R) (j.conn, j.del)
  { j with conn := s.1, del := s.2, chan := j.chan.drop k }

/-- The producer sends a page of keys (`keyChannel <- key` for each); the
consumer then runs as far as the schedule says. -/
def Job.send {σ : Type} (R : Redis σ) (keys : List String) (j : Job σ) : Job σ :=
  Job.receive R (j.sched.headD 0) { j with chan := j.chan ++ keys, sched := j.sched.tail }

/-- The consumer after `close(keyChannel)`: it receives what is left, leaves
the loop and does the final flush. -/
def Job.drain {σ : Type} (R : Redis σ) (j : Job σ) : Job σ :=
  let s := delFinish R (j.chan.foldl (delStep R) (j.conn, j.del))
  { j with conn := s.1, del := s.2, chan := [] }

/-- The consumer when the channel is never closed: it receives what is left
and then waits for ever, without the final flush. -/
def Job.stall {σ : Type} (R : Redis σ) (j : Job σ) : Job σ :=
  let s := j.chan.foldl (delStep R) (j.conn, j.del)
  { j with conn := s.1, del := s.2, chan := [] }

/-- The state in which `Clear` starts its goroutines. -/
def Job.start {σ : Type} (conn : Conn σ) (sched : List Nat) : Job σ :=
  { conn := conn, chan := [], del := Batcher.init, sched := sched }

/-- How a scan loop that feeds the channel ends. -/
inductive ScanEnd where
  | done (matchedTotal : Nat)
  | failed
  | outOfFuel
  deriving DecidableEq

/-! ## ClusterClient -/

/-- The loop of `ClusterClient.scanForCounting`. -/
def ClusterClient.scanForCounting.loop {σ : Type} (R : Redis σ) (rdb keyFormat : String) :
    Nat → Nat → Nat → Conn σ → Option Nat × Conn σ
  | 0, _, _, conn => (none, conn)
  | fuel + 1, cursor, matchedTotal, conn =>
    match Scan R conn rdb cursor keyFormat with
    | (ScanReply.err, conn1) => (some 0, conn1)
    | (ScanReply.ok keys cursor1, conn1) =>
      if cursor1 != 0 then
        ClusterClient.scanForCounting.loop R rdb keyFormat fuel cursor1
          (matchedTotal + keys.length) conn1
      else (some (matchedTotal + keys.length), conn1)

/-- The source's `ClusterClient.scanForCounting`; `none` when the fuel runs out. -/
def ClusterClient.scanForCounting {σ : Type} (R : Redis σ) (fuel : Nat) (conn : Conn σ)
    (rdb keyFormat : String) : Option Nat × Conn σ :=
  ClusterClient.scanForCounting.loop R rdb keyFormat fuel 0 0 conn

/-- The loop of `ClusterClient.scanForDeleting`. -/
def ClusterClient.scanForDeleting.loop {σ : Type} (R : Redis σ) (rdb keyFormat : String) :
    Nat → Nat → Nat → Job σ → Option Nat × Job σ
  | 0, _, _, j => (none, j)
  | fuel + 1, cursor, matchedTotal, j =>
    match Scan R j.conn rdb cursor keyFormat with
    | (ScanReply.err, conn1) => (some 0, { j with conn := conn1 })
    | (ScanReply.ok keys cursor1, conn1) =>
      let j1 := Job.send R keys { j with conn := conn1 }
      if cursor1 != 0 then
        ClusterClient.scanForDeleting.loop R rdb keyFormat fuel cursor1
          (matchedTotal + keys.length) j1
      else (some (matchedTotal + keys.length), j1)

/-- The source's `ClusterClient.scanForDeleting`; `none` when the fuel runs out. -/
def ClusterClient.scanForDeleting {σ : Type} (R : Redis σ) (fuel : Nat) (j : Job σ)
    (rdb keyFormat : String) : Option Nat × Job σ :=
  ClusterClient.scanForDeleting.loop R rdb keyFormat fuel 0 0 j

/-- A `ClusterClient` in one run: the addresses of the masters `ForEachMaster`
starts a goroutine for (distinct nodes), in the order in which their callbacks
have their commands answered. -/
structure ClusterClient where
  masters : List String

/-- Whether, in the run described by `races`, the callback for `addr` writes
the result map while the write of a callback before it in the order is still
in progress.  The first master has no callback before it, so with one master
no write collides. -/
def ClusterClient.collides (t : ClusterClient) (races : String → Bool) (addr : String) : Bool :=
  (t.masters.head? != some addr) && races addr

/-- The assignment `matchedTotalForEachNode[addr] = v` inside a callback of
`ForEachMaster`: the map has no lock, and when the write coincides with the
write of another callback (`racy`) the process stops. -/
def writeResult (racy : Bool) (m : ResultMap) (addr : String) (v : Nat) : Outcome ResultMap :=
  if racy then Outcome.crashed else Outcome.returned (m.set addr v)

/-- The callback of `ForEachMaster` in `ClusterClient.Count`, for one master.
The size query goes to `t.client`, the cluster handle. -/
def ClusterClient.countNode {σ : Type} (R : Redis σ) (fuel : Nat) (format : String)
    (racy : Bool) (s : Outcome ResultMap × Conn σ) (nodeAddress : String) :
    Outcome ResultMap × Conn σ :=
  match s.1 with
  | Outcome.returned m =>
    if format = "" then
      match DBSize R s.2 Handle.cluster with
      | (none, conn1) => (writeResult racy m nodeAddress 0, conn1)
      | (some total, conn1) => (writeResult racy m nodeAddress total, conn1)
    else
      match ClusterClient.scanForCounting R fuel s.2 nodeAddress format with
      | (none, conn1) => (Outcome.unfinished, conn1)
      | (some v, conn1) => (writeResult racy m nodeAddress v, conn1)
  | o => (o, s.2)

/-- The source's `ClusterClient.Count`, in the run in which the callbacks have
their commands answered in the order of `t.masters` and `races` tells which
writes to the result map collide. -/
def ClusterClient.Count {σ : Type} (R : Redis σ) (t : ClusterClient) (fuel : Nat)
    (races : String → Bool) (conn : Conn σ) (format : String) : Outcome ResultMap × Conn σ :=
  let format := TrimSpace format
  t.masters.foldl (fun s a => ClusterClient.countNode R fuel format (t.collides races a) s a)
    (Outcome.returned [], conn)

/-- The callback of `ForEachMaster` in `ClusterClient.Clear`, for one master. -/
def ClusterClient.clearNode {σ : Type} (R : Redis σ) (fuel : Nat) (format : String)
    (racy : Bool) (s : Outcome ResultMap × Job σ) (shardAddr : String) :
    Outcome ResultMap × Job σ :=
  match s.1 with
  | Outcome.returned m =>
    match ClusterClient.scanForDeleting R fuel s.2 shardAddr format with
    | (none, j1) => (Outcome.unfinished, j1)
    | (some v, j1) => (writeResult racy m shardAddr v, j1)
  | o => (o, s.2)

/-- The source's `ClusterClient.Clear`, in the run in which the callbacks have
their commands answered in the order of `t.masters` and `races` tells which
writes to the result map collide: the producer goroutine runs `ForEachMaster`
and then closes the channel; the consumer's `delTotal` is left in the `Job`. -/
def ClusterClient.Clear {σ : Type} (R : Redis σ) (t : ClusterClient) (fuel : Nat)
    (races : String → Bool) (sched : List Nat) (conn : Conn σ) (format : String) :
    Outcome ResultMap × Job σ :=
  let format := TrimSpace format
  let s := t.masters.foldl
    (fun s a => ClusterClient.clearNode R fuel format (t.collides races a) s a)
    (Outcome.returned [], Job.start conn sched)
  match s.1 with
  | Outcome.returned m => (Outcome.returned m, Job.drain R s.2)
  | o => (o, s.2)

/-! ## SingleClient -/

/-- A `SingleClient`: the address of its one node. -/
structure SingleClient where
  addr : String

/-- The loop of `SingleClient.Count`; `some none` is the `return nil` of the
error branch, `none` the end of the fuel. -/
def SingleClient.Count.loop {σ : Type} (R : Redis σ) (addr format : String) :
    Nat → Nat → Nat → Conn σ → Option (Option Nat) × Conn σ
  | 0, _, _, conn => (none, conn)
  | fuel + 1, cursor, matchedTotal, conn =>
    match Scan R conn addr cursor format with
    | (ScanReply.err, conn1) => (some none, conn1)
    | (ScanReply.ok keys cursor1, conn1) =>
      if cursor1 != 0 then
        SingleClient.Count.loop R addr format fuel cursor1 (matchedTotal + keys.length) conn1
      else (some (some (matchedTotal + keys.length)), conn1)

/-- The source's `SingleClient.Count`; the returned map is `none` for nil. -/
def SingleClient.Count {σ : Type} (R : Redis σ) (t : SingleClient) (fuel : Nat)
    (conn : Conn σ) (format : String) : Outcome (Option ResultMap) × Conn σ :=
  let format := TrimSpace format
  match SingleClient.Count.loop R t.addr format fuel 0 0 conn with
  | (none, conn1) => (Outcome.unfinished, conn1)
  | (some none, conn1) => (Outcome.returned none, conn1)
  | (some (some matchedTotal), conn1) =>
    (Outcome.returned (some (ResultMap.set [] t.addr matchedTotal)), conn1)

/-- The loop of the producer goroutine of `SingleClient.Clear`. -/
def SingleClient.Clear.loop {σ : Type} (R : Redis σ) (addr format : String) :
    Nat → Nat → Nat → Job σ → ScanEnd × Job σ
  | 0, _, _, j => (ScanEnd.outOfFuel, j)
  | fuel + 1, cursor, matchedTotal, j =>
    match Scan R j.conn addr cursor format with
    | (ScanReply.err, conn1) => (ScanEnd.failed, { j with conn := conn1 })
    | (ScanReply.ok keys cursor1, conn1) =>
      let j1 := Job.send R keys { j with conn := conn1 }
      if cursor1 != 0 then
        SingleClient.Clear.loop R addr format fuel cursor1 (matchedTotal + keys.length) j1
      else (ScanEnd.done (matchedTotal + keys.length), j1)

/-- The source's `SingleClient.Clear`.  The producer closes the channel only
after its loop ends normally; on a scan error it returns before the close, the
consumer never leaves `range keyChannel`, and `wg.Wait()` never returns. -/
def SingleClient.Clear {σ : Type} (R : Redis σ) (t : SingleClient) (fuel : Nat)
    (sched : List Nat) (conn : Conn σ) (format : String) :
    Outcome (Option ResultMap) × Job σ :=
  let format := TrimSpace format
  if format = "" then (Outcome.returned none, Job.start conn sched)
  else
    match SingleClient.Clear.loop R t.addr format fuel 0 0 (Job.start conn sched) with
    | (ScanEnd.outOfFuel, j) => (Outcome.unfinished, j)
    | (ScanEnd.failed, j) => (Outcome.blocked, Job.stall R j)
    | (ScanEnd.done matchedTotal, j) =>
      (Outcome.returned (some (ResultMap.set [] t.addr matchedTotal)), Job.drain R j)

/-! ## Two environments

`Script` answers every command with the next reply of a prepared list, whatever
the command: all reply sequences, and so all servers, are covered by
quantifying over scripts.  `Store` is a small model of a Redis deployment with
nobody else writing to it. -/

/-- The replies still to be given, per kind of command. -/
structure Script where
  scans : List ScanReply
  sizes : List (Option Nat)
  execs : List ExecReply
  deriving DecidableEq

/-- The scripted server; a command past the end of its script fails. -/
def Script.redis : Redis Script where
  scan s _ _ _ :=
    match s.scans with
    | [] => (ScanReply.err, s)
    | r :: rs => (r, { s with scans := rs })
  dbSize s _ :=
    match s.sizes with
    | [] => (none, s)
    | r :: rs => (r, { s with sizes := rs })
  exec s _ :=
    match s.execs with
    | [] => ({ failed := true, vals := [] }, s)
    | r :: rs => (r, { s with execs := rs })

/-- The key space of one node: a table of slots, a deleted key leaves its slot
empty, so that a cursor (a slot index) stays valid across deletions. -/
abbrev Table := List (Option String)

/-- A deployment: the masters with their key spaces. -/
structure Store where
  nodes : List (String × Table)
  deriving DecidableEq

/-- The table with key `k` removed. -/
def Table.del (k : String) (t : Table) : Table :=
  t.map (fun s => if s = some k then none else s)

/-- The number of keys in a table. -/
def Table.size (t : Table) : Nat := (t.filterMap id).length

/-- The key space of the node at `addr`. -/
def Store.table (s : Store) (addr : String) : Table := (s.nodes.lookup addr).getD []

/-- Whether some node holds key `k`. -/
def Store.has (s : Store) (k : String) : Bool := s.nodes.any (fun n => n.2.contains (some k))

/-- The command `DEL k`, routed to whichever node holds the key: 1 iff the key was there. -/
def Store.del (s : Store) (k : String) : Int × Store :=
  (if s.has k then 1 else 0, { nodes := s.nodes.map (fun n => (n.1, n.2.del k)) })

/-- A pipeline of `DEL` commands, executed in order. -/
def Store.delAll (s : Store) : List String → List Int × Store
  | [] => ([], s)
  | k :: ks =>
    let r := s.del k
    let rs := Store.delAll r.2 ks
    (r.1 :: rs.1, rs.2)

/-- Whether `Scan` with `pattern` returns key `k`: go-redis sends no `MATCH`
option for the empty pattern, so every key is returned; `glob` decides the rest. -/
def scanMatches (glob : String → String → Bool) (pattern k : String) : Bool :=
  pattern = "" || glob pattern k

/-- The keys of the slots `cursor ..< cursor + size` that match. -/
def Table.page (glob : String → String → Bool) (pattern : String) (t : Table)
    (cursor size : Nat) : List String :=
  (((t.drop cursor).take size).filterMap id).filter (scanMatches glob pattern)

/-- The model server: a scan step covers `hint + 1` slots and answers cursor 0
after the last slot; the size query counts the keys of a node, on the cluster
handle the keys of all masters; a pipeline never fails. -/
def Store.redis (glob : String → String → Bool) (hint : Nat) : Redis Store where
  scan s addr cursor pattern :=
    let t := s.table addr
    (ScanReply.ok (t.page glob pattern cursor (hint + 1))
      (if cursor + (hint + 1) < t.length then cursor + (hint + 1) else 0), s)
  dbSize s h :=
    match h with
    | Handle.node addr => (some (s.table addr).size, s)
    | Handle.cluster => (some (s.nodes.map (fun n => n.2.size)).sum, s)
  exec s keys :=
    let r := s.delAll keys
    ({ failed := false, vals := r.1 }, r.2)

/-- A glob for the examples: `*` matches any run of characters, every other
character itself. -/
def globChars : List Char → List Char → Bool
  | [], ks => ks.isEmpty
  | p :: ps, ks =>
    if p == '*' then ks.tails.any (globChars ps)
    else
      match ks with
      | [] => false
      | k :: rest => p == k && globChars ps rest

/-- The example glob on strings. -/
def glob (pattern k : String) : Bool := globChars pattern.data k.data

/-! ## Vocabulary for the statements about `delBatch` -/

/-- The key batches submitted by `Exec`, oldest first. -/
def batches (log : List Event) : List (List String) :=
  log.filterMap (fun e => match e with
    | Event.exec keys _ _ => some keys
    | _ => none)

/-- The delete results, each with its key, of all the batches submitted. -/
def outcomes (log : List Event) : List (String × Int) :=
  (log.map (fun e => match e with
    | Event.exec keys _ vals => keys.zip vals
    | _ => [])).flatten

/-- The state after `commands[index] = pipeline.Del(ctx, key); n++`. -/
def enqueue {σ : Type} (s : Conn σ × Batcher) (key : String) : Conn σ × Batcher :=
  (s.1, { pipe := { queued := s.2.pipe.queued ++ [key], issued := s.2.pipe.issued + 1,
                    results := s.2.pipe.results },
          commands := s.2.commands.set (s.2.n % 500) (some s.2.pipe.issued),
          n := s.2.n + 1, delTotal := s.2.delTotal })

/-- What holds of `delBatch` after it has received the keys `done`, whatever
the replies were. -/
structure Inv {σ : Type} (s : Conn σ × Batcher) (done : List String) : Prop where
  n_eq : s.2.n = done.length
  issued_eq : s.2.pipe.issued = s.2.n
  queued_len : s.2.pipe.queued.length = s.2.n % 500
  results_len : s.2.pipe.results.length + s.2.pipe.queued.length = s.2.n
  commands_len : s.2.commands.length = 500
  keys_eq : (batches s.1.log).flatten ++ s.2.pipe.queued = done
  full : ∀ b ∈ batches s.1.log, b.length = 500
  vals_eq : (outcomes s.1.log).map Prod.snd = s.2.pipe.results
  fst_eq : (outcomes s.1.log).map Prod.fst = (batches s.1.log).flatten

/-- No `Exec` in the log failed. -/
def AllOk (log : List Event) : Prop :=
  ∀ ks f vs, Event.exec ks f vs ∈ log → f = false

/-- What holds in addition as long as no `Exec` has failed: the slots hold
exactly the commands queued since the last flush, and `delTotal` is the sum of
the values of all commands sent. -/
structure InvOk {σ : Type} (s : Conn σ × Batcher) : Prop where
  slots : s.2.commands =
    (List.range' s.2.pipe.results.length s.2.pipe.queued.length).map some ++
      List.replicate (500 - s.2.pipe.queued.length) none
  total : s.2.delTotal = s.2.pipe.results.sum

/-- The results of the batches whose `Exec` succeeded. -/
def okResults (log : List Event) : List Int :=
  (log.map (fun e => match e with
    | Event.exec _ false vals => vals
    | _ => [])).flatten

/-! ## Vocabulary for the statements about the scan loops -/

/-- Whether an event is a scan query. -/
def Event.isScan : Event → Bool
  | Event.scan _ _ _ _ => true
  | _ => false

/-- The scan queries of a log, oldest first. -/
def scanLog (log : List Event) : List Event := log.filter Event.isScan

/-- A successful scan reply for each (keys, cursor) pair. -/
def okReplies (steps : List (List String × Nat)) : List ScanReply :=
  steps.map (fun p => ScanReply.ok p.1 p.2)

/-- The number of keys in a sequence of scan pages. -/
def pageTotal (steps : List (List String × Nat)) : Nat :=
  (steps.map (fun p => p.1.length)).sum

/-- The scan queries of a scan that starts at `cursor` and is answered by
`steps`: every query passes the cursor of the reply before it. -/
def scanTrace (addr pattern : String) : Nat → List (List String × Nat) → List Event
  | _, [] => []
  | cursor, p :: ps =>
    Event.scan addr cursor pattern (ScanReply.ok p.1 p.2) :: scanTrace addr pattern p.2 ps

/-- The cursor a scan holds after the replies `steps`. -/
def cursorAfter : Nat → List (List String × Nat) → Nat
  | cursor, [] => cursor
  | _, p :: ps => cursorAfter p.2 ps

/-- The replies of the C7 scenario: the first `Exec` reports an error after its
first command failed and the other 499 each deleted their key; the second
`Exec` succeeds and deletes one key. -/
def failedThenOk : Script :=
  { scans := [], sizes := [],
    execs := [{ failed := true, vals := 0 :: List.replicate 499 1 },
              { failed := false, vals := [1] }] }

/-! ## Vocabulary for the statements about the model store -/

/-- A pipeline of deletions applied to one table. -/
def Table.delAll (ks : List String) (t : Table) : Table :=
  ks.foldl (fun t k => Table.del k t) t

/-- Every key that matches the pattern and sits in a slot of the region `S`
is among the keys `pending`: those waiting in the channel or in the pipeline. -/
def Covered (glob : String → String → Bool) (pattern : String) (S : String → Nat → Prop)
    (w : Store) (pending : List String) : Prop :=
  ∀ a i k, (w.table a)[i]? = some (some k) → S a i → scanMatches glob pattern k = true →
    k ∈ pending

section DelBatch

variable {σ : Type} (R : Redis σ)

theorem flushInto_n (s : Conn σ × Batcher) : (flushInto R s).2.n = s.2.n := by
  cases h : (R.exec s.1.world s.2.pipe.queued).1.failed <;> simp [flushInto, flush, Exec, h]

theorem flushInto_queued (s : Conn σ × Batcher) : (flushInto R s).2.pipe.queued = [] := by
  cases h : (R.exec s.1.world s.2.pipe.queued).1.failed <;> simp [flushInto, flush, Exec, h]

theorem flushInto_issued (s : Conn σ × Batcher) :
    (flushInto R s).2.pipe.issued = s.2.pipe.issued := by
  cases h : (R.exec s.1.world s.2.pipe.queued).1.failed <;> simp [flushInto, flush, Exec, h]

theorem flushInto_log (s : Conn σ × Batcher) :
    (flushInto R s).1.log = s.1.log ++
      [Event.exec s.2.pipe.queued (R.exec s.1.world s.2.pipe.queued).1.failed
        (execVals s.2.pipe.queued.length (R.exec s.1.world s.2.pipe.queued).1)] := by
  cases h : (R.exec s.1.world s.2.pipe.queued).1.failed <;> simp [flushInto, flush, Exec, h]

theorem flushInto_world (s : Conn σ × Batcher) :
    (flushInto R s).1.world = (R.exec s.1.world s.2.pipe.queued).2 := by
  cases h : (R.exec s.1.world s.2.pipe.queued).1.failed <;> simp [flushInto, flush, Exec, h]

theorem flushInto_results (s : Conn σ × Batcher) :
    (flushInto R s).2.pipe.results = s.2.pipe.results ++
      execVals s.2.pipe.queued.length (R.exec s.1.world s.2.pipe.queued).1 := by
  cases h : (R.exec s.1.world s.2.pipe.queued).1.failed <;> simp [flushInto, flush, Exec, h]

theorem flushInto_commands_length (s : Conn σ × Batcher) :
    (flushInto R s).2.commands.length = s.2.commands.length := by
  cases h : (R.exec s.1.world s.2.pipe.queued).1.failed <;> simp [flushInto, flush, Exec, h]

theorem batches_append (l₁ l₂ : List Event) : batches (l₁ ++ l₂) = batches l₁ ++ batches l₂ := by
  simp [batches]

theorem outcomes_append (l₁ l₂ : List Event) :
    outcomes (l₁ ++ l₂) = outcomes l₁ ++ outcomes l₂ := by
  simp [outcomes]

theorem execVals_length (n : Nat) (r : ExecReply) : (execVals n r).length = n := by
  simp [execVals]

theorem delStep_eq (s : Conn σ × Batcher) (key : String) :
    delStep R s key =
      if (s.2.n + 1) % 500 = 0 then flushInto R (enqueue s key) else enqueue s key := rfl

theorem inv_init (w : σ) : Inv (({ world := w, log := [] } : Conn σ), Batcher.init) [] := by
  refine ⟨rfl, rfl, rfl, rfl, ?_, rfl, ?_, rfl, rfl⟩
  · exact List.length_replicate _ _
  · intro b hb
    simp [batches] at hb

theorem inv_step {s : Conn σ × Batcher} {done : List String} (h : Inv s done) (key : String) :
    Inv (delStep R s key) (done ++ [key]) := by
  have hlt : s.2.n % 500 < 500 := Nat.mod_lt _ (by norm_num)
  rw [delStep_eq]
  split
  next hfull =>
    have hq : (s.2.pipe.queued ++ [key]).length = 500 := by
      simp only [List.length_append, List.length_singleton, h.queued_len]
      omega
    constructor
    · simp [flushInto_n, enqueue, h.n_eq]
    · simp [flushInto_n, flushInto_issued, enqueue, h.issued_eq]
    · simp [flushInto_n, flushInto_queued, enqueue, hfull]
    · rw [flushInto_results, flushInto_queued, flushInto_n]
      simp only [enqueue, List.length_append, execVals_length, List.length_singleton,
        List.length_nil]
      have := h.results_len
      omega
    · simp [flushInto_commands_length, enqueue, h.commands_len]
    · rw [flushInto_log, flushInto_queued]
      simp only [enqueue, batches_append, List.flatten_append, List.append_nil]
      simp [batches, ← h.keys_eq]
    · intro b hb
      rw [flushInto_log] at hb
      simp only [enqueue, batches_append, List.mem_append] at hb
      rcases hb with hb | hb
      · exact h.full b hb
      · simp [batches] at hb
        rw [hb]; exact hq
    · rw [flushInto_log, flushInto_results]
      simp only [enqueue, outcomes_append, List.map_append, h.vals_eq]
      simp [outcomes, List.map_snd_zip, execVals_length]
    · rw [flushInto_log]
      simp only [enqueue, outcomes_append, batches_append, List.map_append, h.fst_eq,
        List.flatten_append]
      simp [outcomes, batches, List.map_fst_zip, execVals_length]
  next hfull =>
    constructor
    · simp [enqueue, h.n_eq]
    · simp [enqueue, h.issued_eq]
    · simp only [enqueue, List.length_append, List.length_singleton, h.queued_len]
      omega
    · simp only [enqueue, List.length_append, List.length_singleton]
      have := h.results_len
      omega
    · simp [enqueue, h.commands_len]
    · simp [enqueue, ← h.keys_eq]
    · exact h.full
    · exact h.vals_eq
    · exact h.fst_eq

theorem inv_foldl {s : Conn σ × Batcher} {done : List String} (h : Inv s done)
    (keys : List String) : Inv (keys.foldl (delStep R) s) (done ++ keys) := by
  induction keys generalizing s done with
  | nil => simpa using h
  | cons k ks ih =>
    have := ih (inv_step R h k)
    simpa using this

theorem delFinish_of_zero {s : Conn σ × Batcher} (h : s.2.n % 500 = 0) :
    delFinish R s = s := by
  simp [delFinish, h]

theorem delFinish_of_ne {s : Conn σ × Batcher} (h : s.2.n % 500 ≠ 0) :
    delFinish R s = flushInto R s := by
  simp [delFinish, h]

theorem delFinish_log (s : Conn σ × Batcher) :
    batches (delFinish R s).1.log =
      batches s.1.log ++ (if s.2.n % 500 = 0 then [] else [s.2.pipe.queued]) := by
  unfold delFinish
  by_cases h : s.2.n % 500 = 0
  · simp [h]
  · simp [h, flushInto_log, batches_append, batches]

theorem full_batches_length {bs : List (List String)} (h : ∀ b ∈ bs, b.length = 500) :
    bs.flatten.length = 500 * bs.length ∧ bs.map List.length = List.replicate bs.length 500 := by
  induction bs with
  | nil => simp
  | cons b bs ih =>
    have hb := h b (List.mem_cons_self _ _)
    obtain ⟨ih1, ih2⟩ := ih (fun c hc => h c (List.mem_cons_of_mem _ hc))
    constructor
    · simp [hb, ih1]; omega
    · simp [hb, ih2, List.replicate_succ]

/-- C5: for a key stream of `n` keys and any replies, `delBatch` submits the
stream in order as `n / 500` batches of exactly 500 commands followed, when
`n % 500 ≠ 0`, by one batch of `n % 500` commands: `ceil (n / 500)` batches in
all, none for `n = 0`, and 1, 2 and 2 batches for 500, 501 and 1000 keys. -/
theorem delBatch_batches (w : σ) (keys : List String) :
    (batches (delBatch R { world := w, log := [] } keys).1.log).flatten = keys ∧
    (batches (delBatch R { world := w, log := [] } keys).1.log).map List.length =
      List.replicate (keys.length / 500) 500 ++
        (if keys.length % 500 = 0 then [] else [keys.length % 500]) ∧
    (batches (delBatch R { world := w, log := [] } keys).1.log).length =
      (keys.length + 499) / 500 ∧
    (keys.length = 0 → batches (delBatch R { world := w, log := [] } keys).1.log = []) ∧
    (keys.length = 500 →
      (batches (delBatch R { world := w, log := [] } keys).1.log).length = 1) ∧
    (keys.length = 501 →
      (batches (delBatch R { world := w, log := [] } keys).1.log).length = 2) ∧
    (keys.length = 1000 →
      (batches (delBatch R { world := w, log := [] } keys).1.log).length = 2) := by
  have h := inv_foldl R (inv_init w) keys
  simp only [List.nil_append] at h
  have hlog := delFinish_log R (keys.foldl (delStep R) ({ world := w, log := [] }, Batcher.init))
  have hfl := full_batches_length h.full
  have hk := h.keys_eq
  have hq := h.queued_len
  have hn := h.n_eq
  have hlen : 500 * (batches (keys.foldl (delStep R)
      ({ world := w, log := [] }, Batcher.init)).1.log).length + keys.length % 500
      = keys.length := by
    have := congrArg List.length hk
    rw [List.length_append, hfl.1, hq, hn] at this
    exact this
  have hdiv : (batches (keys.foldl (delStep R)
      ({ world := w, log := [] }, Batcher.init)).1.log).length = keys.length / 500 := by
    omega
  have key1 : (batches (delBatch R { world := w, log := [] } keys).1.log).flatten = keys := by
    unfold delBatch
    rw [hlog, hn]
    by_cases h0 : keys.length % 500 = 0
    · have hnil : (keys.foldl (delStep R)
          ({ world := w, log := [] }, Batcher.init)).2.pipe.queued = [] := by
        apply List.eq_nil_of_length_eq_zero
        rw [hq, hn, h0]
      rw [hnil] at hk
      simpa [h0] using hk
    · simpa [h0] using hk
  have key2 : (batches (delBatch R { world := w, log := [] } keys).1.log).map List.length =
      List.replicate (keys.length / 500) 500 ++
        (if keys.length % 500 = 0 then [] else [keys.length % 500]) := by
    unfold delBatch
    rw [hlog, hn, List.map_append, hfl.2, hdiv]
    by_cases h0 : keys.length % 500 = 0
    · simp [h0]
    · simp [h0, hq, hn]
  have key3 : (batches (delBatch R { world := w, log := [] } keys).1.log).length =
      (keys.length + 499) / 500 := by
    have := congrArg List.length key2
    rw [List.length_map] at this
    rw [this]
    by_cases h0 : keys.length % 500 = 0
    · simp [h0]; omega
    · simp [h0]; omega
  refine ⟨key1, key2, key3, ?_, ?_, ?_, ?_⟩
  · intro h0
    apply List.eq_nil_of_length_eq_zero
    rw [key3, h0]
  · intro h0
    rw [key3, h0]
  · intro h0
    rw [key3, h0]
  · intro h0
    rw [key3, h0]

theorem flushInto_of_ok (s : Conn σ × Batcher)
    (h : (R.exec s.1.world s.2.pipe.queued).1.failed = false) :
    (flushInto R s).2.commands = s.2.commands.map (fun _ => none) ∧
    (flushInto R s).2.delTotal = s.2.delTotal +
      (s.2.commands.map (fun c => match c with
        | some c => (s.2.pipe.results ++
            execVals s.2.pipe.queued.length (R.exec s.1.world s.2.pipe.queued).1).getD c 0
        | none => 0)).sum := by
  simp [flushInto, flush, Exec, h, Pipe.val]

theorem flushInto_of_failed (s : Conn σ × Batcher)
    (h : (R.exec s.1.world s.2.pipe.queued).1.failed = true) :
    (flushInto R s).2.commands = s.2.commands ∧
    (flushInto R s).2.delTotal = s.2.delTotal := by
  simp [flushInto, flush, Exec, h]

theorem vals_window (xs ys zs : List Int) :
    (List.range' xs.length ys.length).map (fun c => (xs ++ ys ++ zs).getD c 0) = ys := by
  induction ys generalizing xs with
  | nil => simp
  | cons y ys ih =>
    have h := ih (xs ++ [y])
    simp only [List.length_append, List.length_singleton, List.append_assoc,
      List.singleton_append] at h
    rw [List.length_cons, List.range'_succ, List.map_cons, List.append_assoc, h]
    simp [List.getElem_append_right]

theorem sum_vals_window (xs ys : List Int) :
    (List.range' xs.length ys.length).map (fun c => (xs ++ ys).getD c 0) = ys := by
  have := vals_window xs ys []
  simpa using this

theorem invOk_init (w : σ) : InvOk (({ world := w, log := [] } : Conn σ), Batcher.init) := by
  constructor
  · rfl
  · rfl

theorem invOk_flush {s : Conn σ × Batcher} (hlen : s.2.commands.length = 500)
    (hO : InvOk s) (hok : (R.exec s.1.world s.2.pipe.queued).1.failed = false) :
    InvOk (flushInto R s) := by
  obtain ⟨hc, ht⟩ := flushInto_of_ok R s hok
  constructor
  · rw [hc, flushInto_queued]
    simp only [List.length_nil, List.range'_zero, List.map_nil, List.nil_append, Nat.sub_zero]
    rw [← hlen]
    exact List.map_const' _ _
  · rw [ht, flushInto_results, hO.total, List.sum_append]
    congr 1
    have hv := sum_vals_window s.2.pipe.results
      (execVals s.2.pipe.queued.length (R.exec s.1.world s.2.pipe.queued).1)
    rw [execVals_length] at hv
    conv_lhs => rw [hO.slots]
    rw [List.map_append, List.map_map, List.sum_append]
    have hz : (List.map (fun c : Option Nat => match c with
        | some c => (s.2.pipe.results ++
            execVals s.2.pipe.queued.length (R.exec s.1.world s.2.pipe.queued).1).getD c 0
        | none => 0) (List.replicate (500 - s.2.pipe.queued.length) none)).sum = 0 := by
      simp
    rw [hz, add_zero]
    exact congrArg List.sum hv

theorem log_sub_delStep (s : Conn σ × Batcher) (key : String) (e : Event)
    (h : e ∈ s.1.log) : e ∈ (delStep R s key).1.log := by
  rw [delStep_eq]
  split
  · rw [flushInto_log]
    exact List.mem_append_left _ h
  · exact h

theorem log_sub_foldl (keys : List String) (s : Conn σ × Batcher) (e : Event)
    (h : e ∈ s.1.log) : e ∈ (keys.foldl (delStep R) s).1.log := by
  induction keys generalizing s with
  | nil => exact h
  | cons k ks ih => exact ih _ (log_sub_delStep R s k e h)

theorem log_sub_delFinish (s : Conn σ × Batcher) (e : Event)
    (h : e ∈ s.1.log) : e ∈ (delFinish R s).1.log := by
  unfold delFinish
  split
  · rw [flushInto_log]
    exact List.mem_append_left _ h
  · exact h

theorem allOk_flush {s : Conn σ × Batcher} (h : AllOk (flushInto R s).1.log) :
    (R.exec s.1.world s.2.pipe.queued).1.failed = false := by
  apply h s.2.pipe.queued _
    (execVals s.2.pipe.queued.length (R.exec s.1.world s.2.pipe.queued).1)
  rw [flushInto_log]
  simp

theorem invOk_queue_key {s : Conn σ × Batcher} {done : List String} (hI : Inv s done)
    (hO : InvOk s) (key : String) : InvOk (enqueue s key) := by
  have hlt : s.2.n % 500 < 500 := Nat.mod_lt _ (by norm_num)
  have hq := hI.queued_len
  have hiss : s.2.pipe.issued = s.2.pipe.results.length + s.2.pipe.queued.length := by
    rw [hI.issued_eq, hI.results_len]
  constructor
  · simp only [enqueue, List.length_append, List.length_singleton]
    rw [hO.slots, ← hq, List.set_append_right _ _ (by simp), List.range'_concat,
      List.map_append, List.append_assoc]
    congr 1
    have h500 : 500 - s.2.pipe.queued.length = (500 - (s.2.pipe.queued.length + 1)) + 1 := by
      omega
    rw [h500, List.replicate_succ]
    simp [hiss]
  · exact hO.total

theorem invOk_step {s : Conn σ × Batcher} {done : List String} (hI : Inv s done)
    (hO : InvOk s) (key : String) (hok : AllOk (delStep R s key).1.log) :
    InvOk (delStep R s key) := by
  have hlt : s.2.n % 500 < 500 := Nat.mod_lt _ (by norm_num)
  have hq := hI.queued_len
  have hiss : s.2.pipe.issued = s.2.pipe.results.length + s.2.pipe.queued.length := by
    rw [hI.issued_eq, hI.results_len]
  have hE : InvOk (enqueue s key) := invOk_queue_key hI hO key
  rw [delStep_eq] at hok ⊢
  split
  next hfull =>
    rw [if_pos hfull] at hok
    apply invOk_flush R _ hE (allOk_flush R hok)
    simp [enqueue, hI.commands_len]
  next hfull => exact hE

theorem invOk_foldl {s : Conn σ × Batcher} {done : List String} (hI : Inv s done)
    (hO : InvOk s) (keys : List String) (hok : AllOk (keys.foldl (delStep R) s).1.log) :
    InvOk (keys.foldl (delStep R) s) := by
  induction keys generalizing s done with
  | nil => exact hO
  | cons k ks ih =>
    have hok1 : AllOk (delStep R s k).1.log := by
      intro ks1 f vs hmem
      exact hok ks1 f vs (log_sub_foldl R ks _ _ hmem)
    exact ih (inv_step R hI k) (invOk_step R hI hO k hok1) hok

/-- C6: when every batch submission of the run succeeds, the delete results
in the log are one per key of the stream, in stream order, and `delBatch`
returns their sum; so when every result is 1 the total is the number of keys. -/
theorem delBatch_total_of_success (w : σ) (keys : List String)
    (hok : ∀ ks f vs, Event.exec ks f vs ∈ (delBatch R { world := w, log := [] } keys).1.log →
      f = false) :
    (outcomes (delBatch R { world := w, log := [] } keys).1.log).map Prod.fst = keys ∧
    (delBatch R { world := w, log := [] } keys).2.delTotal =
      ((outcomes (delBatch R { world := w, log := [] } keys).1.log).map Prod.snd).sum ∧
    ((∀ o ∈ outcomes (delBatch R { world := w, log := [] } keys).1.log, o.2 = 1) →
      (delBatch R { world := w, log := [] } keys).2.delTotal = keys.length) := by
  have hI := inv_foldl R (inv_init w) keys
  simp only [List.nil_append] at hI
  have hokpre : AllOk (keys.foldl (delStep R) ({ world := w, log := [] }, Batcher.init)).1.log := by
    intro ks f vs hmem
    exact hok ks f vs (log_sub_delFinish R _ _ hmem)
  have hO := invOk_foldl R (inv_init w) (invOk_init w) keys hokpre
  have key : (outcomes (delBatch R { world := w, log := [] } keys).1.log).map Prod.fst = keys ∧
      (delBatch R { world := w, log := [] } keys).2.delTotal =
        ((outcomes (delBatch R { world := w, log := [] } keys).1.log).map Prod.snd).sum := by
    unfold delBatch at hok ⊢
    by_cases h0 : (keys.foldl (delStep R) ({ world := w, log := [] }, Batcher.init)).2.n % 500 = 0
    · have hnil : (keys.foldl (delStep R)
          ({ world := w, log := [] }, Batcher.init)).2.pipe.queued = [] := by
        apply List.eq_nil_of_length_eq_zero
        rw [hI.queued_len, h0]
      rw [delFinish_of_zero R h0]
      refine ⟨?_, ?_⟩
      · rw [hI.fst_eq]
        have := hI.keys_eq
        rwa [hnil, List.append_nil] at this
      · rw [hI.vals_eq]
        exact hO.total
    · rw [delFinish_of_ne R h0] at hok ⊢
      have hO2 := invOk_flush R hI.commands_len hO (allOk_flush R hok)
      refine ⟨?_, ?_⟩
      · rw [flushInto_log, outcomes_append, List.map_append, hI.fst_eq]
        simp only [outcomes, List.map_cons, List.map_nil, List.flatten_cons, List.flatten_nil,
          List.append_nil]
        rw [List.map_fst_zip _ _ (by rw [execVals_length])]
        exact hI.keys_eq
      · rw [hO2.total, flushInto_results, flushInto_log, outcomes_append, List.map_append,
          hI.vals_eq]
        simp only [outcomes, List.map_cons, List.map_nil, List.flatten_cons, List.flatten_nil,
          List.append_nil]
        rw [List.map_snd_zip _ _ (by rw [execVals_length])]
  refine ⟨key.1, key.2, ?_⟩
  intro hall
  rw [key.2]
  have hlen : ((outcomes (delBatch R { world := w, log := [] } keys).1.log).map Prod.snd).length
      = keys.length := by
    rw [List.length_map, ← List.length_map _ Prod.fst, key.1]
  rw [← hlen]
  have hones : ∀ v ∈ (outcomes (delBatch R { world := w, log := [] } keys).1.log).map Prod.snd,
      v = 1 := by
    intro v hv
    obtain ⟨o, ho, rfl⟩ := List.mem_map.1 hv
    exact hall o ho
  rw [List.eq_replicate_of_mem hones]
  simp

theorem foldl_enqueue_fst (keys : List String) (s : Conn σ × Batcher) :
    (keys.foldl enqueue s).1 = s.1 := by
  induction keys generalizing s with
  | nil => rfl
  | cons k ks ih => rw [List.foldl_cons, ih]; rfl

theorem foldl_delStep_no_flush (keys : List String) (s : Conn σ × Batcher)
    (h : s.2.n % 500 + keys.length < 500) :
    keys.foldl (delStep R) s = keys.foldl enqueue s := by
  induction keys generalizing s with
  | nil => rfl
  | cons k ks ih =>
    rw [List.length_cons] at h
    have hstep : delStep R s k = enqueue s k := by
      rw [delStep_eq, if_neg (by omega)]
    rw [List.foldl_cons, List.foldl_cons, hstep]
    apply ih
    show (s.2.n + 1) % 500 + ks.length < 500
    omega

/-- The run of `delBatch` on 501 keys when the first `Exec` fails and the
second succeeds: the second flush also adds the values the failed `Exec` left
in the commands of slots 1 to 499. -/
theorem delBatch_after_failed_batch (w : σ) (ks : List String) (z : String)
    (hks : ks.length = 500) (h1 : (R.exec w ks).1.failed = true)
    (h2 : (R.exec (R.exec w ks).2 [z]).1.failed = false) :
    (delBatch R { world := w, log := [] } (ks ++ [z])).2.delTotal =
      (execVals 1 (R.exec (R.exec w ks).2 [z]).1).sum +
        ((execVals 500 (R.exec w ks).1).drop 1).sum ∧
    (delBatch R { world := w, log := [] } (ks ++ [z])).1.log =
      [Event.exec ks true (execVals 500 (R.exec w ks).1),
       Event.exec [z] false (execVals 1 (R.exec (R.exec w ks).2 [z]).1)] := by
  obtain ⟨ks0, k, rfl⟩ : ∃ ks0 k, ks = ks0 ++ [k] := by
    have hne : ks ≠ [] := by
      intro h0; rw [h0] at hks; simp at hks
    exact ⟨ks.dropLast, ks.getLast hne, (List.dropLast_append_getLast hne).symm⟩
  have hlen0 : ks0.length = 499 := by
    simp only [List.length_append, List.length_singleton] at hks
    omega
  -- the state after 499 keys
  have hI := inv_foldl R (inv_init w) ks0
  simp only [List.nil_append] at hI
  have hnf := foldl_delStep_no_flush R ks0 ({ world := w, log := [] }, Batcher.init)
    (by show 0 % 500 + ks0.length < 500; omega)
  have hconn : (ks0.foldl (delStep R) ({ world := w, log := [] }, Batcher.init)).1
      = { world := w, log := [] } := by
    rw [hnf, foldl_enqueue_fst]
  have hO := invOk_foldl R (inv_init w) (invOk_init w) ks0 (by
    rw [hconn]; intro ks f vs hmem; simp at hmem)
  generalize hs : ks0.foldl (delStep R) ({ world := w, log := [] }, Batcher.init) = s at hI hO hconn
  have hn : s.2.n = 499 := by rw [hI.n_eq, hlen0]
  have hql : s.2.pipe.queued.length = 499 := by rw [hI.queued_len, hn]
  have hres : s.2.pipe.results = [] := by
    apply List.eq_nil_of_length_eq_zero
    have := hI.results_len
    omega
  have hqueued : s.2.pipe.queued = ks0 := by
    have := hI.keys_eq
    rw [hconn] at this
    simpa [batches] using this
  have htot : s.2.delTotal = 0 := by rw [hO.total, hres]; rfl
  -- the 500th key: the flush fails
  have hE := invOk_queue_key hI hO k
  have hEq : (enqueue s k).2.pipe.queued = ks0 ++ [k] := by simp [enqueue, hqueued]
  have hEw : (enqueue s k).1.world = w := by simp [enqueue, hconn]
  have hEc : (enqueue s k).2.commands = (List.range' 0 500).map some := by
    rw [hE.slots, hEq, hks]
    simp [enqueue, hres]
  have h1E : (R.exec (enqueue s k).1.world (enqueue s k).2.pipe.queued).1.failed = true := by
    rw [hEw, hEq]; exact h1
  obtain ⟨hFc, hFt⟩ := flushInto_of_failed R _ h1E
  have hFr := flushInto_results R (enqueue s k)
  have hFl := flushInto_log R (enqueue s k)
  have hFw := flushInto_world R (enqueue s k)
  have hFq := flushInto_queued R (enqueue s k)
  have hFn := flushInto_n R (enqueue s k)
  have hFi := flushInto_issued R (enqueue s k)
  rw [hEw, hEq] at hFr hFl hFw
  rw [hks, h1] at hFl
  rw [hks] at hFr
  have hstep1 : delStep R s k = flushInto R (enqueue s k) := by
    rw [delStep_eq, if_pos (by rw [hn])]
  generalize flushInto R (enqueue s k) = F at hFc hFt hFr hFl hFw hFq hFn hFi hstep1
  have hFn2 : F.2.n = 500 := by rw [hFn]; simp [enqueue, hn]
  have hFi2 : F.2.pipe.issued = 500 := by
    rw [hFi]; simp [enqueue, hI.issued_eq, hn]
  -- the 501st key and the final flush
  have hstep2 : delStep R F z = enqueue F z := by
    rw [delStep_eq, if_neg (by rw [hFn2]; norm_num)]
  have hGn : (enqueue F z).2.n % 500 ≠ 0 := by
    show (F.2.n + 1) % 500 ≠ 0
    rw [hFn2]; norm_num
  have hGq : (enqueue F z).2.pipe.queued = [z] := by simp [enqueue, hFq]
  have hGw : (enqueue F z).1.world = (R.exec w (ks0 ++ [k])).2 := by simp [enqueue, hFw]
  have h2G : (R.exec (enqueue F z).1.world (enqueue F z).2.pipe.queued).1.failed = false := by
    rw [hGw, hGq]; exact h2
  have hfold : (ks0 ++ [k] ++ [z]).foldl (delStep R) ({ world := w, log := [] }, Batcher.init)
      = enqueue F z := by
    rw [List.foldl_append, List.foldl_append, hs]
    simp only [List.foldl_cons, List.foldl_nil]
    rw [hstep1, hstep2]
  have hfin : delBatch R { world := w, log := [] } (ks0 ++ [k] ++ [z])
      = flushInto R (enqueue F z) := by
    unfold delBatch
    rw [hfold, delFinish_of_ne R hGn]
  obtain ⟨_, hHt⟩ := flushInto_of_ok R _ h2G
  have hHl := flushInto_log R (enqueue F z)
  rw [hGw, hGq, h2] at hHl
  rw [hGw, hGq, List.length_singleton] at hHt
  rw [hfin]
  constructor
  · rw [hHt]
    have hGc : (enqueue F z).2.commands = some 500 :: (List.range' 1 499).map some := by
      show F.2.commands.set (F.2.n % 500) (some F.2.pipe.issued) = _
      have hr : List.range' 0 500 = 0 :: List.range' 1 499 := List.range'_succ 0 499 1
      rw [hFc, hEc, hFn2, hFi2, Nat.mod_self, hr, List.map_cons, List.set_cons_zero]
    have hGr : (enqueue F z).2.pipe.results = execVals 500 (R.exec w (ks0 ++ [k])).1 := by
      show F.2.pipe.results = _
      rw [hFr]
      show s.2.pipe.results ++ _ = _
      rw [hres, List.nil_append]
    have hGt : (enqueue F z).2.delTotal = 0 := by
      show F.2.delTotal = 0
      rw [hFt]; exact htot
    rw [hGc, hGr, hGt, zero_add, List.map_cons, List.sum_cons, List.map_map]
    have hv1 : (execVals 500 (R.exec w (ks0 ++ [k])).1).length = 500 := execVals_length _ _
    have hv2 : (execVals 1 (R.exec (R.exec w (ks0 ++ [k])).2 [z]).1).length = 1 :=
      execVals_length _ _
    generalize execVals 500 (R.exec w (ks0 ++ [k])).1 = v1 at hv1
    generalize execVals 1 (R.exec (R.exec w (ks0 ++ [k])).2 [z]).1 = v2 at hv2
    have hw := vals_window (v1.take 1) (v1.drop 1) v2
    rw [List.take_append_drop] at hw
    have hl1 : (v1.take 1).length = 1 := by simp [hv1]
    have hl2 : (v1.drop 1).length = 499 := by simp [hv1]
    rw [hl1, hl2] at hw
    congr 1
    · obtain ⟨a, rfl⟩ : ∃ a, v2 = [a] := List.length_eq_one.1 hv2
      simp [List.getElem?_append_right, hv1]
    · show (List.map (fun c => (v1 ++ v2).getD c 0) (List.range' 1 499)).sum = _
      rw [hw]
  · rw [hHl]
    show F.1.log ++ _ = _
    rw [hFl]
    show s.1.log ++ _ ++ _ = _
    rw [hconn]
    rfl

end DelBatch

/-! ## What the consumer leaves untouched -/

section Frame

variable {σ : Type} (R : Redis σ)

theorem scanLog_append (l₁ l₂ : List Event) : scanLog (l₁ ++ l₂) = scanLog l₁ ++ scanLog l₂ := by
  simp [scanLog]

theorem flushInto_scanLog (s : Conn σ × Batcher) :
    scanLog (flushInto R s).1.log = scanLog s.1.log := by
  rw [flushInto_log, scanLog_append]
  simp [scanLog, Event.isScan]

theorem delStep_scanLog (s : Conn σ × Batcher) (key : String) :
    scanLog (delStep R s key).1.log = scanLog s.1.log := by
  rw [delStep_eq]
  split
  · rw [flushInto_scanLog]; rfl
  · rfl

theorem foldl_scanLog (keys : List String) (s : Conn σ × Batcher) :
    scanLog (keys.foldl (delStep R) s).1.log = scanLog s.1.log := by
  induction keys generalizing s with
  | nil => rfl
  | cons k ks ih => rw [List.foldl_cons, ih, delStep_scanLog]

theorem delFinish_scanLog (s : Conn σ × Batcher) :
    scanLog (delFinish R s).1.log = scanLog s.1.log := by
  unfold delFinish
  split
  · rw [flushInto_scanLog]
  · rfl

theorem send_scanLog (keys : List String) (j : Job σ) :
    scanLog (Job.send R keys j).conn.log = scanLog j.conn.log := by
  simp [Job.send, Job.receive, foldl_scanLog]

theorem drain_scanLog (j : Job σ) : scanLog (Job.drain R j).conn.log = scanLog j.conn.log := by
  simp [Job.drain, delFinish_scanLog, foldl_scanLog]

theorem stall_scanLog (j : Job σ) : scanLog (Job.stall R j).conn.log = scanLog j.conn.log := by
  simp [Job.stall, foldl_scanLog]

variable {β : Type} (f : σ → β)

theorem flushInto_frame (hf : ∀ w ks, f (R.exec w ks).2 = f w) (s : Conn σ × Batcher) :
    f (flushInto R s).1.world = f s.1.world := by
  rw [flushInto_world, hf]

theorem delStep_frame (hf : ∀ w ks, f (R.exec w ks).2 = f w) (s : Conn σ × Batcher)
    (key : String) : f (delStep R s key).1.world = f s.1.world := by
  rw [delStep_eq]
  split
  · rw [flushInto_frame R f hf]; rfl
  · rfl

theorem foldl_frame (hf : ∀ w ks, f (R.exec w ks).2 = f w) (keys : List String)
    (s : Conn σ × Batcher) : f (keys.foldl (delStep R) s).1.world = f s.1.world := by
  induction keys generalizing s with
  | nil => rfl
  | cons k ks ih => rw [List.foldl_cons, ih, delStep_frame R f hf]

theorem send_frame (hf : ∀ w ks, f (R.exec w ks).2 = f w) (keys : List String) (j : Job σ) :
    f (Job.send R keys j).conn.world = f j.conn.world := by
  simp [Job.send, Job.receive, foldl_frame R f hf]

end Frame

theorem script_exec_scans (w : Script) (ks : List String) :
    (Script.redis.exec w ks).2.scans = w.scans := by
  unfold Script.redis
  cases h : w.execs <;> simp [h]

theorem script_Scan_cons {conn : Conn Script} {r : ScanReply} {rs : List ScanReply}
    (h : conn.world.scans = r :: rs) (addr : String) (cursor : Nat) (pattern : String) :
    Scan Script.redis conn addr cursor pattern =
      (r, { world := { conn.world with scans := rs },
            log := conn.log ++ [Event.scan addr cursor pattern r] }) := by
  simp [Scan, Script.redis, h]

theorem pageTotal_cons (p : List String × Nat) (ps : List (List String × Nat)) :
    pageTotal (p :: ps) = p.1.length + pageTotal ps := by
  simp [pageTotal]

theorem scanForDeleting_loop_steps (rdb fmt : String)
    (steps : List (List String × Nat)) (hsteps : ∀ p ∈ steps, p.2 ≠ 0)
    (fuel cursor total : Nat) (j : Job Script) (rest : List ScanReply)
    (hj : j.conn.world.scans = okReplies steps ++ rest) :
    ∃ j1 : Job Script,
      ClusterClient.scanForDeleting.loop Script.redis rdb fmt (fuel + steps.length) cursor total j =
        ClusterClient.scanForDeleting.loop Script.redis rdb fmt fuel (cursorAfter cursor steps)
          (total + pageTotal steps) j1 ∧
      j1.conn.world.scans = rest ∧
      scanLog j1.conn.log = scanLog j.conn.log ++ scanTrace rdb fmt cursor steps := by
  induction steps generalizing cursor total j with
  | nil => exact ⟨j, by simp [cursorAfter, pageTotal], by simpa [okReplies] using hj, by simp [scanTrace]⟩
  | cons p ps ih =>
    have hp : p.2 ≠ 0 := hsteps p (List.mem_cons_self _ _)
    have hj1 : j.conn.world.scans = ScanReply.ok p.1 p.2 :: (okReplies ps ++ rest) := by
      simpa [okReplies] using hj
    obtain ⟨j1, h1, h2, h3⟩ := ih (fun q hq => hsteps q (List.mem_cons_of_mem _ hq)) p.2
      (total + p.1.length)
      (Job.send Script.redis p.1 { j with conn :=
        { world := { j.conn.world with scans := okReplies ps ++ rest },
          log := j.conn.log ++ [Event.scan rdb cursor fmt (ScanReply.ok p.1 p.2)] } })
      (by rw [send_frame Script.redis Script.scans script_exec_scans])
    refine ⟨j1, ?_, h2, ?_⟩
    · rw [List.length_cons, ← Nat.add_assoc, ClusterClient.scanForDeleting.loop,
        script_Scan_cons hj1]
      simp only [bne_iff_ne, ne_eq, hp, not_false_eq_true, if_true]
      rw [h1, pageTotal_cons, cursorAfter, Nat.add_assoc]
    · rw [h3, send_scanLog, scanTrace]
      simp [scanLog, Event.isScan]

theorem scanForCounting_loop_steps (rdb fmt : String)
    (steps : List (List String × Nat)) (hsteps : ∀ p ∈ steps, p.2 ≠ 0)
    (fuel cursor total : Nat) (conn : Conn Script) (rest : List ScanReply)
    (hc : conn.world.scans = okReplies steps ++ rest) :
    ClusterClient.scanForCounting.loop Script.redis rdb fmt (fuel + steps.length) cursor total conn =
      ClusterClient.scanForCounting.loop Script.redis rdb fmt fuel (cursorAfter cursor steps)
        (total + pageTotal steps)
        { world := { conn.world with scans := rest },
          log := conn.log ++ scanTrace rdb fmt cursor steps } := by
  induction steps generalizing cursor total conn with
  | nil =>
    have : conn.world.scans = rest := by simpa [okReplies] using hc
    simp [cursorAfter, pageTotal, scanTrace, ← this]
  | cons p ps ih =>
    have hp : p.2 ≠ 0 := hsteps p (List.mem_cons_self _ _)
    have hc1 : conn.world.scans = ScanReply.ok p.1 p.2 :: (okReplies ps ++ rest) := by
      simpa [okReplies] using hc
    rw [List.length_cons, ← Nat.add_assoc, ClusterClient.scanForCounting.loop,
      script_Scan_cons hc1]
    simp only [bne_iff_ne, ne_eq, hp, not_false_eq_true, if_true]
    rw [ih (fun q hq => hsteps q (List.mem_cons_of_mem _ hq)) p.2 (total + p.1.length) _ rfl]
    simp [pageTotal_cons, cursorAfter, scanTrace, Nat.add_assoc]

theorem singleCount_loop_steps (addr fmt : String)
    (steps : List (List String × Nat)) (hsteps : ∀ p ∈ steps, p.2 ≠ 0)
    (fuel cursor total : Nat) (conn : Conn Script) (rest : List ScanReply)
    (hc : conn.world.scans = okReplies steps ++ rest) :
    SingleClient.Count.loop Script.redis addr fmt (fuel + steps.length) cursor total conn =
      SingleClient.Count.loop Script.redis addr fmt fuel (cursorAfter cursor steps)
        (total + pageTotal steps)
        { world := { conn.world with scans := rest },
          log := conn.log ++ scanTrace addr fmt cursor steps } := by
  induction steps generalizing cursor total conn with
  | nil =>
    have : conn.world.scans = rest := by simpa [okReplies] using hc
    simp [cursorAfter, pageTotal, scanTrace, ← this]
  | cons p ps ih =>
    have hp : p.2 ≠ 0 := hsteps p (List.mem_cons_self _ _)
    have hc1 : conn.world.scans = ScanReply.ok p.1 p.2 :: (okReplies ps ++ rest) := by
      simpa [okReplies] using hc
    rw [List.length_cons, ← Nat.add_assoc, SingleClient.Count.loop, script_Scan_cons hc1]
    simp only [bne_iff_ne, ne_eq, hp, not_false_eq_true, if_true]
    rw [ih (fun q hq => hsteps q (List.mem_cons_of_mem _ hq)) p.2 (total + p.1.length) _ rfl]
    simp [pageTotal_cons, cursorAfter, scanTrace, Nat.add_assoc]

theorem singleClear_loop_steps (addr fmt : String)
    (steps : List (List String × Nat)) (hsteps : ∀ p ∈ steps, p.2 ≠ 0)
    (fuel cursor total : Nat) (j : Job Script) (rest : List ScanReply)
    (hj : j.conn.world.scans = okReplies steps ++ rest) :
    ∃ j1 : Job Script,
      SingleClient.Clear.loop Script.redis addr fmt (fuel + steps.length) cursor total j =
        SingleClient.Clear.loop Script.redis addr fmt fuel (cursorAfter cursor steps)
          (total + pageTotal steps) j1 ∧
      j1.conn.world.scans = rest ∧
      scanLog j1.conn.log = scanLog j.conn.log ++ scanTrace addr fmt cursor steps := by
  induction steps generalizing cursor total j with
  | nil => exact ⟨j, by simp [cursorAfter, pageTotal], by simpa [okReplies] using hj, by simp [scanTrace]⟩
  | cons p ps ih =>
    have hp : p.2 ≠ 0 := hsteps p (List.mem_cons_self _ _)
    have hj1 : j.conn.world.scans = ScanReply.ok p.1 p.2 :: (okReplies ps ++ rest) := by
      simpa [okReplies] using hj
    obtain ⟨j1, h1, h2, h3⟩ := ih (fun q hq => hsteps q (List.mem_cons_of_mem _ hq)) p.2
      (total + p.1.length)
      (Job.send Script.redis p.1 { j with conn :=
        { world := { j.conn.world with scans := okReplies ps ++ rest },
          log := j.conn.log ++ [Event.scan addr cursor fmt (ScanReply.ok p.1 p.2)] } })
      (by rw [send_frame Script.redis Script.scans script_exec_scans])
    refine ⟨j1, ?_, h2, ?_⟩
    · rw [List.length_cons, ← Nat.add_assoc, SingleClient.Clear.loop, script_Scan_cons hj1]
      simp only [bne_iff_ne, ne_eq, hp, not_false_eq_true, if_true]
      rw [h1, pageTotal_cons, cursorAfter, Nat.add_assoc]
    · rw [h3, send_scanLog, scanTrace]
      simp [scanLog, Event.isScan]

theorem fuel_split {n fuel : Nat} (h : n < fuel) : ∃ f, fuel = (f + 1) + n :=
  ⟨fuel - n - 1, by omega⟩

theorem scanForCounting_loop_failing (rdb fmt : String)
    (steps : List (List String × Nat)) (hsteps : ∀ p ∈ steps, p.2 ≠ 0)
    (fuel : Nat) (hfuel : steps.length < fuel) (cursor total : Nat) (conn : Conn Script)
    (rest : List ScanReply)
    (hc : conn.world.scans = okReplies steps ++ ScanReply.err :: rest) :
    ClusterClient.scanForCounting.loop Script.redis rdb fmt fuel cursor total conn =
      (some 0,
        { world := { conn.world with scans := rest },
          log := conn.log ++ scanTrace rdb fmt cursor steps ++
            [Event.scan rdb (cursorAfter cursor steps) fmt ScanReply.err] }) := by
  obtain ⟨f, rfl⟩ := fuel_split hfuel
  rw [scanForCounting_loop_steps rdb fmt steps hsteps (f + 1) cursor total conn _ hc,
    ClusterClient.scanForCounting.loop, script_Scan_cons rfl]

theorem singleCount_loop_failing (addr fmt : String)
    (steps : List (List String × Nat)) (hsteps : ∀ p ∈ steps, p.2 ≠ 0)
    (fuel : Nat) (hfuel : steps.length < fuel) (cursor total : Nat) (conn : Conn Script)
    (rest : List ScanReply)
    (hc : conn.world.scans = okReplies steps ++ ScanReply.err :: rest) :
    SingleClient.Count.loop Script.redis addr fmt fuel cursor total conn =
      (some none,
        { world := { conn.world with scans := rest },
          log := conn.log ++ scanTrace addr fmt cursor steps ++
            [Event.scan addr (cursorAfter cursor steps) fmt ScanReply.err] }) := by
  obtain ⟨f, rfl⟩ := fuel_split hfuel
  rw [singleCount_loop_steps addr fmt steps hsteps (f + 1) cursor total conn _ hc,
    SingleClient.Count.loop, script_Scan_cons rfl]

theorem scanForDeleting_loop_failing (rdb fmt : String)
    (steps : List (List String × Nat)) (hsteps : ∀ p ∈ steps, p.2 ≠ 0)
    (fuel : Nat) (hfuel : steps.length < fuel) (cursor total : Nat) (j : Job Script)
    (rest : List ScanReply)
    (hj : j.conn.world.scans = okReplies steps ++ ScanReply.err :: rest) :
    ∃ j1 : Job Script,
      ClusterClient.scanForDeleting.loop Script.redis rdb fmt fuel cursor total j = (some 0, j1) ∧
      j1.conn.world.scans = rest ∧
      scanLog j1.conn.log = scanLog j.conn.log ++ scanTrace rdb fmt cursor steps ++
        [Event.scan rdb (cursorAfter cursor steps) fmt ScanReply.err] := by
  obtain ⟨f, rfl⟩ := fuel_split hfuel
  obtain ⟨j1, h1, h2, h3⟩ :=
    scanForDeleting_loop_steps rdb fmt steps hsteps (f + 1) cursor total j _ hj
  refine ⟨{ j1 with conn :=
    { world := { j1.conn.world with scans := rest },
      log := j1.conn.log ++
        [Event.scan rdb (cursorAfter cursor steps) fmt ScanReply.err] } }, ?_, ?_, ?_⟩
  · rw [h1, ClusterClient.scanForDeleting.loop, script_Scan_cons h2]
  · rfl
  · show scanLog (j1.conn.log ++ _) = _
    rw [scanLog_append, h3]
    simp [scanLog, Event.isScan]

theorem singleClear_loop_failing (addr fmt : String)
    (steps : List (List String × Nat)) (hsteps : ∀ p ∈ steps, p.2 ≠ 0)
    (fuel : Nat) (hfuel : steps.length < fuel) (cursor total : Nat) (j : Job Script)
    (rest : List ScanReply)
    (hj : j.conn.world.scans = okReplies steps ++ ScanReply.err :: rest) :
    ∃ j1 : Job Script,
      SingleClient.Clear.loop Script.redis addr fmt fuel cursor total j = (ScanEnd.failed, j1) ∧
      j1.conn.world.scans = rest ∧
      scanLog j1.conn.log = scanLog j.conn.log ++ scanTrace addr fmt cursor steps ++
        [Event.scan addr (cursorAfter cursor steps) fmt ScanReply.err] := by
  obtain ⟨f, rfl⟩ := fuel_split hfuel
  obtain ⟨j1, h1, h2, h3⟩ :=
    singleClear_loop_steps addr fmt steps hsteps (f + 1) cursor total j _ hj
  refine ⟨{ j1 with conn :=
    { world := { j1.conn.world with scans := rest },
      log := j1.conn.log ++
        [Event.scan addr (cursorAfter cursor steps) fmt ScanReply.err] } }, ?_, ?_, ?_⟩
  · rw [h1, SingleClient.Clear.loop, script_Scan_cons h2]
  · rfl
  · show scanLog (j1.conn.log ++ _) = _
    rw [scanLog_append, h3]
    simp [scanLog, Event.isScan]

/-! ## The model store -/

theorem store_exec_ok (glob : String → String → Bool) (hint : Nat) (w : Store)
    (ks : List String) : ((Store.redis glob hint).exec w ks).1.failed = false := rfl

section StoreModel

variable (glob : String → String → Bool) (hint : Nat) (fmt : String)

theorem covered_of_subset {S : String → Nat → Prop} {w : Store} {p q : List String}
    (h : Covered glob fmt S w p) (hpq : ∀ k ∈ p, k ∈ q) : Covered glob fmt S w q :=
  fun a i k hk hS hm => hpq k (h a i k hk hS hm)

end StoreModel

/-- C3, counterexample: one node whose scan returns the page `["a", "b"]`
with cursor 7 and then fails.  The partial count is 2, yet `ClusterClient`
records 0 for the node in `Count` and in `Clear`, and `SingleClient.Count`
returns nil. -/
theorem scan_failure_discards_partial_count :
    (ClusterClient.Count Script.redis { masters := ["n"] } 5 (fun _ => false)
        { world := { scans := [ScanReply.ok ["a", "b"] 7, ScanReply.err], sizes := [],
                     execs := [] }, log := [] } "x*").1 = Outcome.returned [("n", 0)] ∧
    (ClusterClient.Clear Script.redis { masters := ["n"] } 5 (fun _ => false) []
        { world := { scans := [ScanReply.ok ["a", "b"] 7, ScanReply.err], sizes := [],
                     execs := [{ failed := false, vals := [1, 1] }] }, log := [] } "x*").1
      = Outcome.returned [("n", 0)] ∧
    (SingleClient.Count Script.redis { addr := "n" } 5
        { world := { scans := [ScanReply.ok ["a", "b"] 7, ScanReply.err], sizes := [],
                     execs := [] }, log := [] } "x*").1 = Outcome.returned none ∧
    pageTotal [(["a", "b"], 7)] = 2 := by
  decide

/-- C3, amended: when the scan of a node performs `k` successful steps
(`steps`, non-zero cursors) and then fails, the value the callback of
`ClusterClient.Count` (pattern non-empty after trimming) and the callback of
`ClusterClient.Clear` (any pattern) write into the result map for that node is
0, whatever the pages held: the node's entry is 0 when the write does not
collide with the write of another callback.  `SingleClient.Count` returns
nil. -/
theorem scan_failure_records_zero (steps : List (List String × Nat))
    (hsteps : ∀ p ∈ steps, p.2 ≠ 0) (fuel : Nat) (hfuel : steps.length < fuel)
    (addr fmt : String) (hfmt : fmt ≠ "") (rest : List ScanReply) (m : ResultMap)
    (conn : Conn Script) (hconn : conn.world.scans = okReplies steps ++ ScanReply.err :: rest)
    (j : Job Script) (hj : j.conn.world.scans = okReplies steps ++ ScanReply.err :: rest)
    (fmtClear format : String) (racy : Bool) :
    (ClusterClient.countNode Script.redis fuel fmt racy (Outcome.returned m, conn) addr).1
      = writeResult racy m addr 0 ∧
    (ClusterClient.countNode Script.redis fuel fmt false (Outcome.returned m, conn) addr).1
      = Outcome.returned (m.set addr 0) ∧
    (ClusterClient.clearNode Script.redis fuel fmtClear racy (Outcome.returned m, j) addr).1
      = writeResult racy m addr 0 ∧
    (ClusterClient.clearNode Script.redis fuel fmtClear false (Outcome.returned m, j) addr).1
      = Outcome.returned (m.set addr 0) ∧
    (SingleClient.Count Script.redis { addr := addr } fuel conn format).1
      = Outcome.returned none := by
  have h1 := scanForCounting_loop_failing addr fmt steps hsteps fuel hfuel 0 0 conn rest hconn
  obtain ⟨j1, h2, _, _⟩ := scanForDeleting_loop_failing addr fmtClear steps hsteps
    fuel hfuel 0 0 j rest hj
  have h3 := singleCount_loop_failing addr (TrimSpace format) steps hsteps fuel hfuel 0 0
    conn rest hconn
  refine ⟨?_, ?_, ?_, ?_, ?_⟩
  · simp [ClusterClient.countNode, hfmt, ClusterClient.scanForCounting, h1]
  · simp [ClusterClient.countNode, hfmt, ClusterClient.scanForCounting, h1, writeResult]
  · simp [ClusterClient.clearNode, ClusterClient.scanForDeleting, h2]
  · simp [ClusterClient.clearNode, ClusterClient.scanForDeleting, h2, writeResult]
  · simp [SingleClient.Count, h3]

/-- A run of the amended C3: one successful step, then the failure; the
callback of `Clear` runs with the blank pattern. -/
theorem scan_failure_records_zero_witness :
    (ClusterClient.countNode Script.redis 2 "x*" false
        (Outcome.returned [("m", 4)],
          { world := { scans := [ScanReply.ok ["a", "b"] 7, ScanReply.err], sizes := [],
                       execs := [] }, log := [] }) "n").1
      = Outcome.returned (ResultMap.set [("m", 4)] "n" 0) ∧
    (ClusterClient.clearNode Script.redis 2 "" false
        (Outcome.returned [("m", 4)],
          Job.start { world := { scans := [ScanReply.ok ["a", "b"] 7, ScanReply.err],
                                 sizes := [], execs := [] }, log := [] } []) "n").1
      = Outcome.returned (ResultMap.set [("m", 4)] "n" 0) :=
  have h := scan_failure_records_zero [(["a", "b"], 7)] (by decide) 2 (by decide) "n" "x*"
    (by decide) [] [("m", 4)]
    { world := { scans := [ScanReply.ok ["a", "b"] 7, ScanReply.err], sizes := [],
                 execs := [] }, log := [] } rfl
    (Job.start { world := { scans := [ScanReply.ok ["a", "b"] 7, ScanReply.err], sizes := [],
                            execs := [] }, log := [] } []) rfl "" "x*" false
  ⟨h.2.1, h.2.2.2.1⟩

theorem TrimSpace_blank (format : String) (h : ∀ c ∈ format.data, isSpace c = true) :
    TrimSpace format = "" := by
  have h1 : format.data.dropWhile isSpace = [] := by
    rw [List.dropWhile_eq_nil_iff]
    exact h
  simp [TrimSpace, h1]

/-- The half of C1 that holds: `SingleClient.Clear` with a blank pattern issues
no command and returns nil. -/
theorem singleClear_blank {σ : Type} (R : Redis σ) (t : SingleClient) (fuel : Nat)
    (sched : List Nat) (conn : Conn σ) (format : String)
    (h : ∀ c ∈ format.data, isSpace c = true) :
    SingleClient.Clear R t fuel sched conn format = (Outcome.returned none, Job.start conn sched) := by
  simp [SingleClient.Clear, TrimSpace_blank format h]

set_option maxRecDepth 20000 in
/-- C1, at the failing input: `ClusterClient.Clear` has no guard for a blank
pattern.  With the pattern `"  "` on one master holding two keys it scans with
the empty pattern, which matches every key, submits a delete for both keys,
empties the node and returns a non-nil map. -/
theorem cluster_clear_blank_pattern_wipes :
    (ClusterClient.Clear (Store.redis glob 0) { masters := ["a"] } 3 (fun _ => false) []
        { world := { nodes := [("a", [some "user:1", some "order:2"])] }, log := [] } "  ").1
      = Outcome.returned [("a", 2)] ∧
    (ClusterClient.Clear (Store.redis glob 0) { masters := ["a"] } 3 (fun _ => false) []
        { world := { nodes := [("a", [some "user:1", some "order:2"])] }, log := [] }
        "  ").2.conn.log
      = [Event.scan "a" 0 "" (ScanReply.ok ["user:1"] 1),
         Event.scan "a" 1 "" (ScanReply.ok ["order:2"] 0),
         Event.exec ["user:1", "order:2"] false [1, 1]] ∧
    (ClusterClient.Clear (Store.redis glob 0) { masters := ["a"] } 3 (fun _ => false) []
        { world := { nodes := [("a", [some "user:1", some "order:2"])] }, log := [] }
        "  ").2.conn.world
      = { nodes := [("a", [none, none])] } := by
  decide

/-- C4, at the failing inputs.  `SingleClient.Count` with the empty pattern has
no size-query shortcut: it issues scan queries.  `ClusterClient.Count` sends
its size query to the cluster handle and not to the node, so with masters
holding 2 and 1 keys it records 3 for both, where the nodes answer 2 and 1. -/
theorem count_empty_pattern_misses_node_size :
    (SingleClient.Count (Store.redis glob 0) { addr := "a" } 3
        { world := { nodes := [("a", [some "k1", some "k2"])] }, log := [] } "").2.log
      = [Event.scan "a" 0 "" (ScanReply.ok ["k1"] 1),
         Event.scan "a" 1 "" (ScanReply.ok ["k2"] 0)] ∧
    (ClusterClient.Count (Store.redis glob 0) { masters := ["a", "b"] } 3 (fun _ => false)
        { world := { nodes := [("a", [some "k1", some "k2"]), ("b", [some "k3"])] },
          log := [] } "").1
      = Outcome.returned [("a", 3), ("b", 3)] ∧
    (ClusterClient.Count (Store.redis glob 0) { masters := ["a", "b"] } 3 (fun _ => false)
        { world := { nodes := [("a", [some "k1", some "k2"]), ("b", [some "k3"])] },
          log := [] } "").2.log
      = [Event.dbSize Handle.cluster (some 3), Event.dbSize Handle.cluster (some 3)] ∧
    ((Store.redis glob 0).dbSize
        { nodes := [("a", [some "k1", some "k2"]), ("b", [some "k3"])] } (Handle.node "a")).1
      = some 2 ∧
    ((Store.redis glob 0).dbSize
        { nodes := [("a", [some "k1", some "k2"]), ("b", [some "k3"])] } (Handle.node "b")).1
      = some 1 := by
  decide

theorem countNode_blank {σ : Type} (R : Redis σ) (fuel : Nat) (racy : Bool) (m : ResultMap)
    (c : Conn σ) (a : String) :
    ClusterClient.countNode R fuel "" racy (Outcome.returned m, c) a
      = (writeResult racy m a ((DBSize R c Handle.cluster).1.getD 0),
          (DBSize R c Handle.cluster).2) := by
  simp only [ClusterClient.countNode, if_true]
  split
  next c1 heq => rw [heq]; rfl
  next total c1 heq => rw [heq]; rfl

/-- The half of C4 that holds: `ClusterClient.Count` with a blank pattern
issues no scan query, whatever the environment, and returns a map when no
write to the result map collides with another. -/
theorem clusterCount_blank_no_scan {σ : Type} (R : Redis σ) (t : ClusterClient) (fuel : Nat)
    (races : String → Bool) (conn : Conn σ) (format : String)
    (h : ∀ c ∈ format.data, isSpace c = true) :
    scanLog (ClusterClient.Count R t fuel races conn format).2.log = scanLog conn.log ∧
    ((∀ a ∈ t.masters, t.collides races a = false) →
      ∃ m, (ClusterClient.Count R t fuel races conn format).1 = Outcome.returned m) := by
  have hlog : ∀ c : Conn σ, scanLog (DBSize R c Handle.cluster).2.log = scanLog c.log := by
    intro c
    simp [DBSize, scanLog, Event.isScan]
  have key1 : ∀ (racy : String → Bool) (masters : List String) (o : Outcome ResultMap)
      (c : Conn σ),
      scanLog (masters.foldl (fun s a => ClusterClient.countNode R fuel "" (racy a) s a)
        (o, c)).2.log = scanLog c.log := by
    intro racy masters
    induction masters with
    | nil => intro o c; rfl
    | cons a rest ih =>
      intro o c
      rw [List.foldl_cons]
      cases o with
      | returned m => rw [countNode_blank, ih, hlog]
      | blocked => exact ih _ _
      | crashed => exact ih _ _
      | unfinished => exact ih _ _
  have key2 : ∀ (racy : String → Bool) (masters : List String),
      (∀ a ∈ masters, racy a = false) → ∀ (m : ResultMap) (c : Conn σ),
      ∃ m1, (masters.foldl (fun s a => ClusterClient.countNode R fuel "" (racy a) s a)
        (Outcome.returned m, c)).1 = Outcome.returned m1 := by
    intro racy masters
    induction masters with
    | nil => intro _ m c; exact ⟨m, rfl⟩
    | cons a rest ih =>
      intro hr m c
      rw [List.foldl_cons, countNode_blank, hr a (List.mem_cons_self _ _)]
      exact ih (fun b hb => hr b (List.mem_cons_of_mem _ hb)) _ _
  unfold ClusterClient.Count
  rw [TrimSpace_blank format h]
  exact ⟨key1 _ t.masters _ conn, fun hr => key2 _ t.masters hr [] conn⟩

set_option maxRecDepth 20000 in
/-- With two masters the writes of the two callbacks to the result map can
collide; the run then ends in `crashed`, for `Count` and for `Clear`.  With
one master no write collides. -/
theorem cluster_writes_can_collide :
    (ClusterClient.Count (Store.redis glob 0) { masters := ["a", "b"] } 3 (fun _ => true)
        { world := { nodes := [("a", [some "k1"]), ("b", [some "k2"])] }, log := [] } "k*").1
      = Outcome.crashed ∧
    (ClusterClient.Clear (Store.redis glob 0) { masters := ["a", "b"] } 3 (fun _ => true) []
        { world := { nodes := [("a", [some "k1"]), ("b", [some "k2"])] }, log := [] } "k*").1
      = Outcome.crashed ∧
    (ClusterClient.Count (Store.redis glob 0) { masters := ["a"] } 3 (fun _ => true)
        { world := { nodes := [("a", [some "k1"]), ("b", [some "k2"])] }, log := [] } "k*").1
      = Outcome.returned [("a", 1)] := by
  decide

set_option maxRecDepth 20000 in
/-- C10, at the failing input: the scan of a `SingleClient` returns one page
and then fails.  The producer of `SingleClient.Clear` returns without closing
the channel, the consumer never sees the end of the stream, the two keys it
received are never flushed, and `Clear` does not return; `ClusterClient.Clear`
on the same replies closes the channel, flushes and returns. -/
theorem single_clear_blocks_after_scan_error :
    (SingleClient.Clear Script.redis { addr := "n" } 5 []
        { world := { scans := [ScanReply.ok ["a", "b"] 7, ScanReply.err], sizes := [],
                     execs := [{ failed := false, vals := [1, 1] }] }, log := [] } "x*").1
      = Outcome.blocked ∧
    (SingleClient.Clear Script.redis { addr := "n" } 5 []
        { world := { scans := [ScanReply.ok ["a", "b"] 7, ScanReply.err], sizes := [],
                     execs := [{ failed := false, vals := [1, 1] }] }, log := [] }
        "x*").2.conn.log
      = [Event.scan "n" 0 "x*" (ScanReply.ok ["a", "b"] 7),
         Event.scan "n" 7 "x*" ScanReply.err] ∧
    (ClusterClient.Clear Script.redis { masters := ["n"] } 5 (fun _ => false) []
        { world := { scans := [ScanReply.ok ["a", "b"] 7, ScanReply.err], sizes := [],
                     execs := [{ failed := false, vals := [1, 1] }] }, log := [] } "x*").1
      = Outcome.returned [("n", 0)] ∧
    (ClusterClient.Clear Script.redis { masters := ["n"] } 5 (fun _ => false) []
        { world := { scans := [ScanReply.ok ["a", "b"] 7, ScanReply.err], sizes := [],
                     execs := [{ failed := false, vals := [1, 1] }] }, log := [] }
        "x*").2.conn.log
      = [Event.scan "n" 0 "x*" (ScanReply.ok ["a", "b"] 7),
         Event.scan "n" 7 "x*" ScanReply.err,
         Event.exec ["a", "b"] false [1, 1]] := by
  decide

/-- Whenever the scan of a `SingleClient` fails, after any number of
successful steps, `Clear` blocks. -/
theorem singleClear_blocked (steps : List (List String × Nat))
    (hsteps : ∀ p ∈ steps, p.2 ≠ 0) (fuel : Nat) (hfuel : steps.length < fuel)
    (t : SingleClient) (format : String) (hfmt : TrimSpace format ≠ "")
    (rest : List ScanReply) (sizes : List (Option Nat)) (execs : List ExecReply)
    (sched : List Nat) :
    (SingleClient.Clear Script.redis t fuel sched
        { world := { scans := okReplies steps ++ ScanReply.err :: rest, sizes := sizes,
                     execs := execs }, log := [] } format).1 = Outcome.blocked := by
  obtain ⟨j1, h1, _, _⟩ := singleClear_loop_failing t.addr (TrimSpace format) steps
    hsteps fuel hfuel 0 0
    (Job.start { world := { scans := okReplies steps ++ ScanReply.err :: rest, sizes := sizes,
                            execs := execs }, log := [] } sched) rest rfl
  simp [SingleClient.Clear, hfmt, h1]

theorem execVals_of_length (n : Nat) (r : ExecReply) (h : r.vals.length = n) :
    execVals n r = r.vals := by
  have := vals_window [] r.vals []
  simp only [List.length_nil, List.nil_append, List.append_nil] at this
  rw [execVals, List.range_eq_range', ← h]
  exact this

/-- C7, at the failing input: 501 keys; the first `Exec` reports an error (its
first command failed, the other 499 deleted their key), the second succeeds
with result 1.  The successful batch deleted 1 key, but `delBatch` returns 500:
the second flush also adds the 499 commands of the failed batch that are still
in slots 1 to 499. -/
theorem delBatch_adds_failed_batch_commands :
    (delBatch Script.redis { world := failedThenOk, log := [] }
        (List.replicate 500 "k" ++ ["z"])).2.delTotal = 500 ∧
    okResults (delBatch Script.redis { world := failedThenOk, log := [] }
        (List.replicate 500 "k" ++ ["z"])).1.log = [1] := by
  obtain ⟨h1, h2⟩ := delBatch_after_failed_batch Script.redis failedThenOk
    (List.replicate 500 "k") "z" (List.length_replicate _ _) rfl rfl
  have e1 : execVals 500 { failed := true, vals := 0 :: List.replicate 499 1 }
      = 0 :: List.replicate 499 1 :=
    execVals_of_length _ _ (by rw [List.length_cons, List.length_replicate])
  have e2 : execVals 1 { failed := false, vals := [1] } = [1] := rfl
  have w1 : (Script.redis.exec failedThenOk (List.replicate 500 "k")).1
      = { failed := true, vals := 0 :: List.replicate 499 1 } := rfl
  have w2 : (Script.redis.exec (Script.redis.exec failedThenOk (List.replicate 500 "k")).2
      ["z"]).1 = { failed := false, vals := [1] } := rfl
  rw [w1, w2, e1, e2] at h1 h2
  constructor
  · rw [h1]
    show ([1] : List Int).sum + (List.replicate 499 (1 : Int)).sum = 500
    rw [List.sum_replicate]
    norm_num
  · rw [h2]
    rfl

set_option maxRecDepth 20000 in
/-- A run of C6: two keys, one successful batch, the second key already gone. -/
theorem delBatch_total_of_success_witness :
    (delBatch Script.redis
        { world := { scans := [], sizes := [], execs := [{ failed := false, vals := [1, 0] }] },
          log := [] } ["a", "b"]).1.log = [Event.exec ["a", "b"] false [1, 0]] ∧
    (delBatch Script.redis
        { world := { scans := [], sizes := [], execs := [{ failed := false, vals := [1, 0] }] },
          log := [] } ["a", "b"]).2.delTotal =
      ((outcomes (delBatch Script.redis
        { world := { scans := [], sizes := [], execs := [{ failed := false, vals := [1, 0] }] },
          log := [] } ["a", "b"]).1.log).map Prod.snd).sum :=
  ⟨by decide,
    (delBatch_total_of_success Script.redis
      { scans := [], sizes := [], execs := [{ failed := false, vals := [1, 0] }] } ["a", "b"]
      (by
        intro ks f vs h
        have hl : (delBatch Script.redis
            { world := { scans := [], sizes := [],
                         execs := [{ failed := false, vals := [1, 0] }] },
              log := [] } ["a", "b"]).1.log = [Event.exec ["a", "b"] false [1, 0]] := by
          decide
        rw [hl] at h
        simp at h
        exact h.2.1)).2.1⟩

end Gedis
